import Mathlib

set_option autoImplicit false
set_option maxHeartbeats 1000000

/-!
Shallow embedding of `google_to_bitwarden_converter.py`.

The script reads a Google Passwords CSV, groups rows by the `name` column
into an insertion-ordered dictionary of Bitwarden login items, appends one
uri per accepted row, keeps the first-seen username/password per group, and
appends a conflict annotation to the item notes when a later row for the
same name carries different credentials.  The dictionary is modelled as an
association list in insertion order (Python dicts preserve insertion order);
each per-row step is `processRow`, the whole pass is `processRows`, and the
final document assembly is `convert`.
-/

/-- One parsed CSV row.  `row.get` results that are missing/None are
modelled as the empty string, which is how the script's truthiness checks
treat them. -/
structure Row where
  name : String
  url : String
  username : String
  password : String
  note : String
  deriving DecidableEq

/-- One entry of a login item's uri list: `{"uri": url, "match": None}`.
The Python key `match` is a Lean keyword, hence the field name `uriMatch`. -/
structure UriEntry where
  uri : String
  uriMatch : Option String
  deriving DecidableEq

/-- The `login` sub-object of a Bitwarden item. -/
structure LoginData where
  uris : List UriEntry
  username : String
  password : String
  totp : Option String
  deriving DecidableEq

/-- A Bitwarden login item as built by the script (lines 46-58). -/
structure LoginItem where
  type : Nat
  name : String
  notes : Option String
  favorite : Bool
  login : LoginData
  fields : List String
  deriving DecidableEq

/-- The top-level output document (lines 95-99). -/
structure BitwardenOutput where
  encrypted : Bool
  folders : List String
  items : List LoginItem
  deriving DecidableEq

/-- `expected_headers = ['name', 'url', 'username', 'password']` (line 24). -/
def expected_headers : List String := ["name", "url", "username", "password"]

/-- The header check of line 25: every expected header occurs among the
CSV's declared field names. -/
def checkHeaders (fieldnames : List String) : Bool :=
  expected_headers.all (fun h => fieldnames.contains h)

/-- `{"uri": url, "match": None}` (lines 52 and 62). -/
def mkUri (url : String) : UriEntry := { uri := url, uriMatch := none }

/-- Line 40: a row is processed only when name, url and username are all
truthy (non-empty). -/
def acceptedB (r : Row) : Bool :=
  !(r.name == "") && !(r.url == "") && !(r.username == "")

/-- The accepted rows of an input, in input order. -/
def acceptedRows (rows : List Row) : List Row := rows.filter acceptedB

/-- The conflict annotation string built on lines 75-80. -/
def conflict_note (url username : String) : String :=
  "\n\n--- AUTO-MERGE WARNING ---\n" ++
  "An entry for the URL below had different credentials and was not merged automatically:\n" ++
  "URL: " ++ url ++ "\n" ++
  "Username: " ++ username ++ "\n"

/-- The fresh item created on first occurrence of a name (lines 46-58).
`notes` is the row's note when truthy, else `None`. -/
def newItem (r : Row) : LoginItem :=
  { type := 1
    name := r.name
    notes := if r.note = "" then none else some r.note
    favorite := false
    login :=
      { uris := [mkUri r.url]
        username := r.username
        password := r.password
        totp := none }
    fields := [] }

/-- Python truthiness of the `notes` field (line 81): `None` and the empty
string are falsy. -/
def notesTruthy : Option String → Bool
  | none => false
  | some s => !(s == "")

/-- Python `str.strip()` (line 84): drop leading and trailing whitespace.
Written over the character list so that the kernel can evaluate it. -/
def pyStrip (s : String) : String :=
  ⟨((s.data.dropWhile Char.isWhitespace).reverse.dropWhile Char.isWhitespace).reverse⟩

/-- The mutation applied to an existing item on a repeated name
(lines 60-84): append the uri; when the row's username or password differs
from the stored ones, append the conflict annotation to `notes` (after the
existing content when notes is truthy, else the stripped block alone).
The stored username/password are never changed. -/
def updateItem (it : LoginItem) (r : Row) : LoginItem :=
  let newUris := it.login.uris ++ [mkUri r.url]
  let newNotes :=
    if it.login.username ≠ r.username ∨ it.login.password ≠ r.password then
      if notesTruthy it.notes then
        some (it.notes.getD "" ++ conflict_note r.url r.username)
      else
        some (pyStrip (conflict_note r.url r.username))
    else it.notes
  { it with notes := newNotes, login := { it.login with uris := newUris } }

/-- Lookup in the insertion-ordered association list modelling
`grouped_items` (the `name not in grouped_items` test of line 45). -/
def findGroup : List (String × LoginItem) → String → Option LoginItem
  | [], _ => none
  | p :: rest, n => if p.1 = n then some p.2 else findGroup rest n

/-- Replacement of the value stored under an existing key, keeping the
dictionary's insertion order. -/
def updateAssoc (s : List (String × LoginItem)) (n : String) (v : LoginItem) :
    List (String × LoginItem) :=
  s.map (fun p => if p.1 = n then (n, v) else p)

/-- One iteration of the `for row in reader` loop (lines 31-84). -/
def processRow (s : List (String × LoginItem)) (r : Row) :
    List (String × LoginItem) :=
  if acceptedB r then
    match findGroup s r.name with
    | none => s ++ [(r.name, newItem r)]
    | some it => updateAssoc s r.name (updateItem it r)
  else s

/-- The whole row loop, starting from a given dictionary state. -/
def processRows (s : List (String × LoginItem)) (rows : List Row) :
    List (String × LoginItem) :=
  rows.foldl processRow s

/-- The complete transformation: run the loop on an empty dictionary and
assemble the output document (lines 95-99: `list(grouped_items.values())`). -/
def convert (rows : List Row) : BitwardenOutput :=
  { encrypted := false
    folders := []
    items := (processRows [] rows).map Prod.snd }

/-- Failure surfaced by the converter before any row is processed. -/
inductive ConvError where
  | schemaError (expected found : List String)
  deriving DecidableEq

/-- The converter including the header check of lines 24-29: when a
required header is missing the run aborts with a schema error carrying the
expected and the found header lists, and no document is produced. -/
def runConversion (fieldnames : List String) (rows : List Row) :
    Except ConvError BitwardenOutput :=
  if checkHeaders fieldnames then Except.ok (convert rows)
  else Except.error (ConvError.schemaError expected_headers fieldnames)

/-- Process exit status: `sys.exit(1)` on any error path, 0 on success. -/
def exitCode : Except ConvError BitwardenOutput → Nat
  | Except.ok _ => 0
  | Except.error _ => 1

/-- The required headers absent from the declared field names; these are
exactly the fields a schema error is about. -/
def missingHeaders (fieldnames : List String) : List String :=
  expected_headers.filter (fun h => !(fieldnames.contains h))

/-- The accepted rows bearing a given name, in input order: the rows merged
into that name's group. -/
def groupRows (n : String) (rows : List Row) : List Row :=
  (acceptedRows rows).filter (fun r => r.name == n)

/-- The output item carrying a given name, if any. -/
def findItem (doc : BitwardenOutput) (n : String) : Option LoginItem :=
  doc.items.find? (fun it => it.name == n)

/-- First-occurrence order: the distinct elements of a list in the order in
which each first appears. -/
def firstOccurrences (l : List String) : List String :=
  l.foldl (fun acc x => if x ∈ acc then acc else acc ++ [x]) []

/-- The item a group ends up with, given the group's rows: the first row
creates the item, the rest update it.  Used to state the per-name
characterisation of the row loop. -/
def buildFrom (o : Option LoginItem) (g : List Row) : Option LoginItem :=
  match o, g with
  | some it, g2 => some (g2.foldl updateItem it)
  | none, [] => none
  | none, r :: rs => some (rs.foldl updateItem (newItem r))

/-- The keys of the dictionary state, in insertion order. -/
def keys (s : List (String × LoginItem)) : List String := s.map Prod.fst

/-- The fixed parts of every emitted item's shape. -/
def shapeOK (it : LoginItem) : Prop :=
  it.type = 1 ∧ it.favorite = false ∧ it.login.totp = none ∧ it.fields = [] ∧
  ∀ u ∈ it.login.uris, u.uriMatch = none

/-- Sample row used by the concrete witnesses: first row of a group. -/
def sampleRowA : Row := ⟨"a", "u1", "x1", "p1", ""⟩

/-- Sample row used by the concrete witnesses: conflicting second row. -/
def sampleRowB : Row := ⟨"a", "u2", "x2", "p2", ""⟩

/-- Sample row used by the concrete witnesses: non-conflicting second row
carrying its own note. -/
def sampleRowC : Row := ⟨"a", "u2", "x1", "p1", "ignored"⟩

/-- Sample row used by the concrete witnesses: empty password. -/
def sampleRowD : Row := ⟨"b", "u", "x", "", ""⟩

/-- Sample dictionary state used by the concrete witnesses. -/
def sampleState : List (String × LoginItem) := [("a", newItem sampleRowA)]

/-! ## Basic facts about the per-item update -/

theorem updateItem_name (it : LoginItem) (r : Row) :
    (updateItem it r).name = it.name := rfl

theorem updateItem_type (it : LoginItem) (r : Row) :
    (updateItem it r).type = it.type := rfl

theorem updateItem_favorite (it : LoginItem) (r : Row) :
    (updateItem it r).favorite = it.favorite := rfl

theorem updateItem_fields (it : LoginItem) (r : Row) :
    (updateItem it r).fields = it.fields := rfl

theorem updateItem_totp (it : LoginItem) (r : Row) :
    (updateItem it r).login.totp = it.login.totp := rfl

theorem updateItem_username (it : LoginItem) (r : Row) :
    (updateItem it r).login.username = it.login.username := rfl

theorem updateItem_password (it : LoginItem) (r : Row) :
    (updateItem it r).login.password = it.login.password := rfl

theorem updateItem_uris (it : LoginItem) (r : Row) :
    (updateItem it r).login.uris = it.login.uris ++ [mkUri r.url] := rfl

theorem updateItem_notes (it : LoginItem) (r : Row) :
    (updateItem it r).notes =
      if it.login.username ≠ r.username ∨ it.login.password ≠ r.password then
        (if notesTruthy it.notes then
          some (it.notes.getD "" ++ conflict_note r.url r.username)
        else
          some (pyStrip (conflict_note r.url r.username)))
      else it.notes := rfl

theorem updateItem_note_irrelevant (it : LoginItem) (r : Row) (x : String) :
    updateItem it { r with note := x } = updateItem it r := rfl

theorem updateItem_no_conflict (it : LoginItem) (r : Row)
    (h1 : it.login.username = r.username) (h2 : it.login.password = r.password) :
    updateItem it r =
      { it with login := { it.login with uris := it.login.uris ++ [mkUri r.url] } } := by
  simp only [updateItem]
  rw [if_neg (by push_neg; exact ⟨h1, h2⟩)]

/-! ## Credential and uri accumulation along a group's rows -/

theorem foldl_updateItem_username (g : List Row) : ∀ it : LoginItem,
    (g.foldl updateItem it).login.username = it.login.username := by
  induction g with
  | nil => intro it; rfl
  | cons r rs ih => intro it; rw [List.foldl_cons, ih, updateItem_username]

theorem foldl_updateItem_password (g : List Row) : ∀ it : LoginItem,
    (g.foldl updateItem it).login.password = it.login.password := by
  induction g with
  | nil => intro it; rfl
  | cons r rs ih => intro it; rw [List.foldl_cons, ih, updateItem_password]

theorem foldl_updateItem_uris (g : List Row) : ∀ it : LoginItem,
    (g.foldl updateItem it).login.uris =
      it.login.uris ++ g.map (fun r => mkUri r.url) := by
  induction g with
  | nil => intro it; simp
  | cons r rs ih =>
    intro it
    rw [List.foldl_cons, ih, updateItem_uris, List.map_cons, List.append_assoc]
    rfl

/-! ## Lookup lemmas for the dictionary state -/

theorem findGroup_append (s : List (String × LoginItem)) (k : String)
    (v : LoginItem) (n : String) :
    findGroup (s ++ [(k, v)]) n =
      match findGroup s n with
      | some it => some it
      | none => if k = n then some v else none := by
  induction s with
  | nil => simp [findGroup]
  | cons p rest ih =>
    by_cases h : p.1 = n
    · simp [findGroup, h]
    · rw [List.cons_append]
      simp only [findGroup, if_neg h]
      exact ih

theorem findGroup_updateAssoc_self (s : List (String × LoginItem)) (n : String)
    (v : LoginItem) :
    findGroup (updateAssoc s n v) n = (findGroup s n).map (fun _ => v) := by
  induction s with
  | nil => rfl
  | cons p rest ih =>
    by_cases h : p.1 = n
    · simp [updateAssoc, findGroup, h]
    · simp only [updateAssoc, List.map_cons, if_neg h, findGroup] at ih ⊢
      exact ih

theorem findGroup_updateAssoc_ne (s : List (String × LoginItem)) (n : String)
    (v : LoginItem) (k : String) (h : n ≠ k) :
    findGroup (updateAssoc s n v) k = findGroup s k := by
  induction s with
  | nil => rfl
  | cons p rest ih =>
    by_cases hp : p.1 = n
    · simp only [updateAssoc, List.map_cons, if_pos hp, findGroup] at ih ⊢
      rw [if_neg h, if_neg (hp ▸ h : ¬ p.1 = k), ih]
    · simp only [updateAssoc, List.map_cons, if_neg hp, findGroup] at ih ⊢
      by_cases hk : p.1 = k
      · rw [if_pos hk, if_pos hk]
      · rw [if_neg hk, if_neg hk, ih]

theorem findGroup_some_mem (s : List (String × LoginItem)) (n : String)
    (it : LoginItem) (h : findGroup s n = some it) : (n, it) ∈ s := by
  induction s with
  | nil => exact absurd h (by simp [findGroup])
  | cons p rest ih =>
    obtain ⟨a, b⟩ := p
    simp only [findGroup] at h
    by_cases hp : a = n
    · rw [if_pos hp] at h
      cases Option.some.inj h
      subst hp
      exact List.mem_cons_self _ _
    · rw [if_neg hp] at h
      exact List.mem_cons_of_mem _ (ih h)

/-! ## The effect of one loop iteration on the state -/

theorem processRow_skip (s : List (String × LoginItem)) (r : Row)
    (h : acceptedB r = false) : processRow s r = s := by
  simp [processRow, h]

theorem processRow_new_eq (s : List (String × LoginItem)) (r : Row)
    (hr : acceptedB r = true) (hf : findGroup s r.name = none) :
    processRow s r = s ++ [(r.name, newItem r)] := by
  simp [processRow, hr, hf]

theorem processRow_update_eq (s : List (String × LoginItem)) (r : Row)
    (it : LoginItem) (hr : acceptedB r = true) (hf : findGroup s r.name = some it) :
    processRow s r = updateAssoc s r.name (updateItem it r) := by
  simp [processRow, hr, hf]

theorem findGroup_processRow_new (s : List (String × LoginItem)) (r : Row)
    (hr : acceptedB r = true) (hf : findGroup s r.name = none) :
    findGroup (processRow s r) r.name = some (newItem r) := by
  rw [processRow_new_eq s r hr hf, findGroup_append, hf, if_pos rfl]

theorem findGroup_processRow_update (s : List (String × LoginItem)) (r : Row)
    (it : LoginItem) (hr : acceptedB r = true) (hf : findGroup s r.name = some it) :
    findGroup (processRow s r) r.name = some (updateItem it r) := by
  rw [processRow_update_eq s r it hr hf, findGroup_updateAssoc_self, hf]
  rfl

theorem findGroup_processRow_ne (s : List (String × LoginItem)) (r : Row)
    (k : String) (hr : acceptedB r = true) (hk : r.name ≠ k) :
    findGroup (processRow s r) k = findGroup s k := by
  cases hf : findGroup s r.name with
  | none =>
    rw [processRow_new_eq s r hr hf, findGroup_append]
    cases hg : findGroup s k with
    | none => simp [hk]
    | some it2 => rfl
  | some it =>
    rw [processRow_update_eq s r it hr hf, findGroup_updateAssoc_ne _ _ _ _ hk]

/-! ## Per-name characterisation of the whole loop -/

theorem groupRows_cons (n : String) (r : Row) (rest : List Row) :
    groupRows n (r :: rest) =
      if acceptedB r && (r.name == n) then r :: groupRows n rest
      else groupRows n rest := by
  cases ha : acceptedB r with
  | false => simp [groupRows, acceptedRows, List.filter_cons, ha]
  | true =>
    by_cases hn : r.name = n
    · simp [groupRows, acceptedRows, List.filter_cons, ha, hn]
    · simp [groupRows, acceptedRows, List.filter_cons, ha, hn]

theorem findGroup_processRows (rows : List Row) :
    ∀ (s : List (String × LoginItem)) (n : String),
      findGroup (processRows s rows) n = buildFrom (findGroup s n) (groupRows n rows) := by
  induction rows with
  | nil =>
    intro s n
    cases hf : findGroup s n <;>
      simp [processRows, groupRows, acceptedRows, buildFrom, hf]
  | cons r rest ih =>
    intro s n
    have hstep : processRows s (r :: rest) = processRows (processRow s r) rest := rfl
    rw [hstep, ih (processRow s r) n, groupRows_cons]
    cases ha : acceptedB r with
    | false => rw [processRow_skip s r ha]; simp
    | true =>
      by_cases hn : r.name = n
      · subst hn
        cases hf : findGroup s r.name with
        | none =>
          rw [findGroup_processRow_new s r ha hf]
          simp [buildFrom]
        | some it =>
          rw [findGroup_processRow_update s r it ha hf]
          simp [buildFrom]
      · rw [findGroup_processRow_ne s r n ha hn]
        simp [hn]

/-! ## A generic invariant on the dictionary state -/

theorem state_invariant (P : String × LoginItem → Prop)
    (hnew : ∀ r : Row, P (r.name, newItem r))
    (hupd : ∀ (it : LoginItem) (r : Row), P (r.name, it) → P (r.name, updateItem it r))
    (rows : List Row) :
    ∀ s : List (String × LoginItem), (∀ p ∈ s, P p) →
      ∀ p ∈ processRows s rows, P p := by
  induction rows with
  | nil => intro s hs p hp; exact hs p hp
  | cons r rest ih =>
    intro s hs p hp
    refine ih (processRow s r) ?_ p hp
    intro q hq
    cases ha : acceptedB r with
    | false =>
      rw [processRow_skip s r ha] at hq
      exact hs q hq
    | true =>
      cases hf : findGroup s r.name with
      | none =>
        rw [processRow_new_eq s r ha hf] at hq
        rcases List.mem_append.mp hq with h1 | h2
        · exact hs q h1
        · have : q = (r.name, newItem r) := by simpa using h2
          rw [this]
          exact hnew r
      | some it =>
        rw [processRow_update_eq s r it ha hf] at hq
        obtain ⟨q0, hq0, hmap⟩ := List.mem_map.mp hq
        by_cases hk : q0.1 = r.name
        · rw [if_pos hk] at hmap
          rw [← hmap]
          exact hupd it r (hs (r.name, it) (findGroup_some_mem s r.name it hf))
        · rw [if_neg hk] at hmap
          rw [← hmap]
          exact hs q0 hq0

theorem state_names (rows : List Row) :
    ∀ p ∈ processRows [] rows, (Prod.snd p).name = p.1 := by
  have := state_invariant (fun p => (Prod.snd p).name = p.1)
    (fun r => rfl)
    (fun it r h => by
      show (updateItem it r).name = r.name
      rw [updateItem_name]
      exact h)
    rows [] (by intro p hp; exact absurd hp (List.not_mem_nil p))
  exact this

/-! ## Keys of the state: first-occurrence order -/

theorem keys_updateAssoc (s : List (String × LoginItem)) (n : String) (v : LoginItem) :
    keys (updateAssoc s n v) = keys s := by
  induction s with
  | nil => rfl
  | cons p rest ih =>
    simp only [updateAssoc, keys, List.map_cons] at ih ⊢
    by_cases hp : p.1 = n
    · rw [if_pos hp, ih, hp]
    · rw [if_neg hp, ih]

theorem findGroup_none_iff (s : List (String × LoginItem)) (n : String) :
    findGroup s n = none ↔ n ∉ keys s := by
  induction s with
  | nil => simp [findGroup, keys]
  | cons p rest ih =>
    simp only [findGroup, keys, List.map_cons, List.mem_cons] at ih ⊢
    by_cases hp : p.1 = n
    · simp [hp]
    · simp only [if_neg hp, ih]
      constructor
      · intro h hc
        rcases hc with hc | hc
        · exact hp hc.symm
        · exact h hc
      · intro h
        exact fun hc => h (Or.inr hc)

theorem keys_processRow (s : List (String × LoginItem)) (r : Row)
    (hr : acceptedB r = true) :
    keys (processRow s r) =
      if r.name ∈ keys s then keys s else keys s ++ [r.name] := by
  cases hf : findGroup s r.name with
  | none =>
    have hmem : r.name ∉ keys s := (findGroup_none_iff s r.name).mp hf
    rw [processRow_new_eq s r hr hf, if_neg hmem]
    simp [keys]
  | some it =>
    have hmem : r.name ∈ keys s := by
      by_contra hc
      rw [← findGroup_none_iff, hf] at hc
      exact Option.noConfusion hc
    rw [processRow_update_eq s r it hr hf, keys_updateAssoc, if_pos hmem]

theorem keys_processRows (rows : List Row) :
    ∀ s : List (String × LoginItem),
      keys (processRows s rows) =
        ((acceptedRows rows).map Row.name).foldl
          (fun acc x => if x ∈ acc then acc else acc ++ [x]) (keys s) := by
  induction rows with
  | nil => intro s; rfl
  | cons r rest ih =>
    intro s
    have hstep : processRows s (r :: rest) = processRows (processRow s r) rest := rfl
    cases ha : acceptedB r with
    | false =>
      rw [hstep, processRow_skip s r ha, ih s]
      simp [acceptedRows, List.filter_cons, ha]
    | true =>
      rw [hstep, ih (processRow s r), keys_processRow s r ha]
      simp [acceptedRows, List.filter_cons, ha]

theorem nodup_foldl_firstOccurrence (l : List String) :
    ∀ acc : List String, acc.Nodup →
      (l.foldl (fun acc x => if x ∈ acc then acc else acc ++ [x]) acc).Nodup := by
  induction l with
  | nil => intro acc h; exact h
  | cons x xs ih =>
    intro acc h
    rw [List.foldl_cons]
    by_cases hx : x ∈ acc
    · rw [if_pos hx]; exact ih acc h
    · rw [if_neg hx]
      refine ih _ ?_
      rw [List.nodup_append]
      exact ⟨h, List.nodup_singleton x, by
        intro a ha hax
        rw [List.mem_singleton] at hax
        subst hax
        exact hx ha⟩

/-! ## Linking the output document back to the state -/

theorem find?_eq_findGroup (s : List (String × LoginItem))
    (hs : ∀ p ∈ s, (Prod.snd p).name = p.1) (n : String) :
    (s.map Prod.snd).find? (fun it => it.name == n) = findGroup s n := by
  induction s with
  | nil => rfl
  | cons p rest ih =>
    have hname : p.2.name = p.1 := hs p (List.mem_cons_self _ _)
    have hrest : ∀ q ∈ rest, (Prod.snd q).name = q.1 :=
      fun q hq => hs q (List.mem_cons_of_mem _ hq)
    simp only [List.map_cons, findGroup]
    by_cases hp : p.1 = n
    · have hb : (p.2.name == n) = true := by rw [hname, hp]; exact beq_self_eq_true n
      rw [if_pos hp]
      simp only [List.find?_cons, hb]
    · have hb : (p.2.name == n) = false := by
        rw [hname]
        exact beq_eq_false_iff_ne.mpr hp
      rw [if_neg hp]
      simp only [List.find?_cons, hb]
      exact ih hrest

theorem findItem_eq (rows : List Row) (n : String) :
    findItem (convert rows) n = findGroup (processRows [] rows) n := by
  have h := find?_eq_findGroup (processRows [] rows) (state_names rows) n
  exact h

theorem names_eq_keys (rows : List Row) :
    (convert rows).items.map LoginItem.name = keys (processRows [] rows) := by
  show (List.map Prod.snd (processRows [] rows)).map LoginItem.name = _
  rw [List.map_map]
  have : ∀ p ∈ processRows [] rows,
      (LoginItem.name ∘ Prod.snd) p = Prod.fst p := by
    intro p hp
    exact state_names rows p hp
  exact List.map_congr_left this

/-! ## Shape preservation -/

theorem shapeOK_newItem (r : Row) : shapeOK (newItem r) := by
  refine ⟨rfl, rfl, rfl, rfl, ?_⟩
  intro u hu
  have h : u = mkUri r.url := by simpa [newItem] using hu
  subst h
  rfl

theorem shapeOK_updateItem (it : LoginItem) (r : Row) (h : shapeOK it) :
    shapeOK (updateItem it r) := by
  obtain ⟨h1, h2, h3, h4, h5⟩ := h
  refine ⟨?_, ?_, ?_, ?_, ?_⟩
  · rw [updateItem_type]; exact h1
  · rw [updateItem_favorite]; exact h2
  · rw [updateItem_totp]; exact h3
  · rw [updateItem_fields]; exact h4
  · rw [updateItem_uris]
    intro u hu
    rcases List.mem_append.mp hu with hA | hB
    · exact h5 u hA
    · have hB2 : u = mkUri r.url := by simpa using hB
      subst hB2
      rfl

/-! ## Claim theorems -/

/-- Claim C1: for every group (every distinct name among accepted rows), the
username and password of the output login item equal the username and
password of the first accepted row bearing that name; no later row with the
same name, conflicting or not, ever changes them. -/
theorem first_seen_credentials (rows : List Row) (n : String) (r : Row)
    (rs : List Row) (h : groupRows n rows = r :: rs) :
    ∃ item, findItem (convert rows) n = some item ∧
      item.login.username = r.username ∧ item.login.password = r.password := by
  rw [findItem_eq, findGroup_processRows rows [] n, h]
  refine ⟨rs.foldl updateItem (newItem r), rfl, ?_, ?_⟩
  · rw [foldl_updateItem_username]
    rfl
  · rw [foldl_updateItem_password]
    rfl

/-- Witness for C1 at a concrete input. -/
theorem first_seen_credentials_witness :
    groupRows "a" [(⟨"a", "u", "x", "p", ""⟩ : Row)] =
      [(⟨"a", "u", "x", "p", ""⟩ : Row)] ∧
    ∃ item,
      findItem (convert [(⟨"a", "u", "x", "p", ""⟩ : Row)]) "a" = some item ∧
      item.login.username = "x" ∧ item.login.password = "p" :=
  ⟨by decide,
    first_seen_credentials _ "a" (⟨"a", "u", "x", "p", ""⟩ : Row) [] (by decide)⟩

/-- Claim C2: for every group, the uris of its login item consist of exactly
one entry per accepted row with that name, the i-th uri being the url of the
i-th such row in input order, duplicates preserved and nothing reordered. -/
theorem uris_in_input_order (rows : List Row) (n : String) (item : LoginItem)
    (h : findItem (convert rows) n = some item) :
    item.login.uris = (groupRows n rows).map (fun r => mkUri r.url) ∧
    item.login.uris.length = (groupRows n rows).length := by
  rw [findItem_eq, findGroup_processRows rows [] n] at h
  cases hg : groupRows n rows with
  | nil =>
    rw [hg] at h
    exact absurd h (by simp [buildFrom, findGroup])
  | cons r rs =>
    rw [hg] at h
    have h2 : some (rs.foldl updateItem (newItem r)) = some item := h
    have hitem : item = rs.foldl updateItem (newItem r) := (Option.some.inj h2).symm
    subst hitem
    have huris : (rs.foldl updateItem (newItem r)).login.uris =
        (r :: rs).map (fun q => mkUri q.url) := by
      rw [foldl_updateItem_uris, List.map_cons]
      rfl
    refine ⟨huris, ?_⟩
    rw [huris, List.length_map]

/-- Witness for C2 at a concrete input. -/
theorem uris_in_input_order_witness :
    findItem (convert [(⟨"a", "u", "x", "p", ""⟩ : Row)]) "a" =
      some (newItem (⟨"a", "u", "x", "p", ""⟩ : Row)) ∧
    ((newItem (⟨"a", "u", "x", "p", ""⟩ : Row)).login.uris =
      (groupRows "a" [(⟨"a", "u", "x", "p", ""⟩ : Row)]).map (fun r => mkUri r.url) ∧
     (newItem (⟨"a", "u", "x", "p", ""⟩ : Row)).login.uris.length =
      (groupRows "a" [(⟨"a", "u", "x", "p", ""⟩ : Row)]).length) :=
  ⟨by decide, uris_in_input_order _ "a" _ (by decide)⟩

/-- Claim C3: the output items are exactly one login item per distinct name
among accepted rows, appearing in the order in which each name first occurs
in the input. -/
theorem items_unique_names_first_order (rows : List Row) :
    (convert rows).items.map LoginItem.name =
      firstOccurrences ((acceptedRows rows).map Row.name) ∧
    ((convert rows).items.map LoginItem.name).Nodup := by
  have h1 : (convert rows).items.map LoginItem.name =
      ((acceptedRows rows).map Row.name).foldl
        (fun acc x => if x ∈ acc then acc else acc ++ [x]) [] := by
    rw [names_eq_keys, keys_processRows rows []]
    rfl
  refine ⟨?_, ?_⟩
  · rw [h1]; rfl
  · rw [h1]
    exact nodup_foldl_firstOccurrence _ [] List.nodup_nil

/-- Claim C5: a row whose name, url or username is empty is skipped: it
contributes no uri entry, creates no item and leaves the whole dictionary
state unchanged, so the run is equivalent to the run on the accepted rows
alone. -/
theorem invalid_rows_skipped (rows : List Row) :
    (∀ s : List (String × LoginItem),
      processRows s rows = processRows s (acceptedRows rows)) ∧
    convert rows = convert (acceptedRows rows) := by
  have key : ∀ (l : List Row) (s : List (String × LoginItem)),
      processRows s l = processRows s (acceptedRows l) := by
    intro l
    induction l with
    | nil => intro s; rfl
    | cons r rest ih =>
      intro s
      have h1 : processRows s (r :: rest) = processRows (processRow s r) rest := rfl
      cases ha : acceptedB r with
      | false =>
        rw [h1, processRow_skip s r ha, ih s]
        simp [acceptedRows, List.filter_cons, ha]
      | true =>
        rw [h1, ih (processRow s r)]
        simp [acceptedRows, List.filter_cons, ha, processRows]
  exact ⟨key rows, by unfold convert; rw [key rows []]⟩

/-- Claim C8: every output item has the fixed shape (type tag 1, the
Bitwarden code for "login"; favorite false; totp unset; fields empty; every
uri entry with match unset) and the document has encrypted false and folders
empty. -/
theorem output_shape_fixed (rows : List Row) :
    (convert rows).encrypted = false ∧
    (convert rows).folders = [] ∧
    ∀ it ∈ (convert rows).items,
      it.type = 1 ∧ it.favorite = false ∧ it.login.totp = none ∧
      it.fields = [] ∧ ∀ u ∈ it.login.uris, u.uriMatch = none := by
  refine ⟨rfl, rfl, ?_⟩
  intro it hit
  have hit2 : it ∈ (processRows [] rows).map Prod.snd := hit
  obtain ⟨p, hp, hpe⟩ := List.mem_map.mp hit2
  have hshape : shapeOK p.2 :=
    state_invariant (fun q => shapeOK q.2)
      (fun r => shapeOK_newItem r)
      (fun it0 r h0 => shapeOK_updateItem it0 r h0)
      rows [] (fun q hq => absurd hq (List.not_mem_nil q)) p hp
  rw [← hpe]
  exact hshape

/-- Claim C4: for a row processed after its group was created, a conflict
annotation is appended to the item's notes exactly when the row's username
or password differs from the stored ones; the appended block is built from
the marker text, the row's url and the row's username only (the password is
not part of `conflict_note`); when notes is truthy the block (which begins
with a blank-line separator) is appended after the existing content, and
when notes is unset it becomes exactly the stripped block text. -/
theorem conflict_annotation_appended (s : List (String × LoginItem)) (r : Row)
    (item : LoginItem) (hr : acceptedB r = true)
    (hf : findGroup s r.name = some item) :
    ∃ item2,
      findGroup (processRow s r) r.name = some item2 ∧
      (item.login.username = r.username ∧ item.login.password = r.password →
        item2.notes = item.notes) ∧
      ((item.login.username ≠ r.username ∨ item.login.password ≠ r.password) →
        item2.notes =
          (if notesTruthy item.notes then
            some (item.notes.getD "" ++ conflict_note r.url r.username)
          else
            some (pyStrip (conflict_note r.url r.username)))) := by
  refine ⟨updateItem item r, findGroup_processRow_update s r item hr hf, ?_, ?_⟩
  · intro h
    rw [updateItem_notes, if_neg (by push_neg; exact h)]
  · intro hc
    rw [updateItem_notes, if_pos hc]

/-- Witness for C4 at a concrete input. -/
theorem conflict_annotation_appended_witness :
    acceptedB sampleRowB = true ∧
    findGroup sampleState sampleRowB.name = some (newItem sampleRowA) ∧
    ∃ item2,
      findGroup (processRow sampleState sampleRowB) sampleRowB.name = some item2 ∧
      ((newItem sampleRowA).login.username = sampleRowB.username ∧
        (newItem sampleRowA).login.password = sampleRowB.password →
        item2.notes = (newItem sampleRowA).notes) ∧
      (((newItem sampleRowA).login.username ≠ sampleRowB.username ∨
        (newItem sampleRowA).login.password ≠ sampleRowB.password) →
        item2.notes =
          (if notesTruthy (newItem sampleRowA).notes then
            some ((newItem sampleRowA).notes.getD "" ++
              conflict_note sampleRowB.url sampleRowB.username)
          else
            some (pyStrip (conflict_note sampleRowB.url sampleRowB.username)))) :=
  ⟨by decide, by decide,
    conflict_annotation_appended sampleState sampleRowB (newItem sampleRowA)
      (by decide) (by decide)⟩

/-- Claim C9: a second or later row of an existing group never contributes
its own note field (the step is unchanged under any replacement of that
row's note); a non-conflicting such row changes nothing on the item except
appending one uri entry; and the entries of every other group are left
untouched. -/
theorem later_rows_frame (s : List (String × LoginItem)) (r : Row)
    (item : LoginItem) (hr : acceptedB r = true)
    (hf : findGroup s r.name = some item) :
    (∀ x : String, processRow s { r with note := x } = processRow s r) ∧
    (item.login.username = r.username ∧ item.login.password = r.password →
      findGroup (processRow s r) r.name =
        some { item with login :=
          { item.login with uris := item.login.uris ++ [mkUri r.url] } }) ∧
    (∀ k : String, k ≠ r.name → findGroup (processRow s r) k = findGroup s k) := by
  refine ⟨?_, ?_, ?_⟩
  · intro x
    have hr2 : acceptedB { r with note := x } = true := hr
    have hf2 : findGroup s (Row.name { r with note := x }) = some item := hf
    rw [processRow_update_eq s { r with note := x } item hr2 hf2,
        processRow_update_eq s r item hr hf,
        updateItem_note_irrelevant]
  · rintro ⟨h1, h2⟩
    rw [findGroup_processRow_update s r item hr hf,
        updateItem_no_conflict item r h1 h2]
  · intro k hk
    exact findGroup_processRow_ne s r k hr (Ne.symm hk)

/-- Witness for C9 at a concrete input. -/
theorem later_rows_frame_witness :
    acceptedB sampleRowC = true ∧
    findGroup sampleState sampleRowC.name = some (newItem sampleRowA) ∧
    ((∀ x : String, processRow sampleState { sampleRowC with note := x } =
        processRow sampleState sampleRowC) ∧
     ((newItem sampleRowA).login.username = sampleRowC.username ∧
       (newItem sampleRowA).login.password = sampleRowC.password →
       findGroup (processRow sampleState sampleRowC) sampleRowC.name =
         some { newItem sampleRowA with login :=
           { (newItem sampleRowA).login with
              uris := (newItem sampleRowA).login.uris ++ [mkUri sampleRowC.url] } }) ∧
     (∀ k : String, k ≠ sampleRowC.name →
       findGroup (processRow sampleState sampleRowC) k = findGroup sampleState k)) :=
  ⟨by decide, by decide,
    later_rows_frame sampleState sampleRowC (newItem sampleRowA)
      (by decide) (by decide)⟩

/-- Claim C10: a row whose password is empty but whose name, url and
username are non-empty is accepted and processed normally: on an unseen
name it creates a group whose stored password is the empty string, and
first-seen-wins keeps that empty password (and the row's username) for the
rest of the run; on an existing group it goes through the same conflict
check as any other row, its empty password compared against the stored
one. -/
theorem empty_password_rows (s : List (String × LoginItem)) (r : Row)
    (hp : r.password = "") (hn : r.name ≠ "") (hu : r.url ≠ "")
    (hus : r.username ≠ "") :
    acceptedB r = true ∧
    (findGroup s r.name = none →
      findGroup (processRow s r) r.name = some (newItem r) ∧
      (newItem r).login.password = "" ∧
      ∀ rest : List Row, ∃ it2,
        findGroup (processRows (processRow s r) rest) r.name = some it2 ∧
        it2.login.password = "" ∧ it2.login.username = r.username) ∧
    (∀ item, findGroup s r.name = some item →
      findGroup (processRow s r) r.name = some (updateItem item r) ∧
      (updateItem item r).login.username = item.login.username ∧
      (updateItem item r).login.password = item.login.password ∧
      (updateItem item r).notes =
        (if item.login.username ≠ r.username ∨ item.login.password ≠ "" then
          (if notesTruthy item.notes then
            some (item.notes.getD "" ++ conflict_note r.url r.username)
          else
            some (pyStrip (conflict_note r.url r.username)))
        else item.notes)) := by
  have hacc : acceptedB r = true := by
    unfold acceptedB
    simp [hn, hu, hus]
  refine ⟨hacc, ?_, ?_⟩
  · intro hf
    refine ⟨findGroup_processRow_new s r hacc hf, hp, ?_⟩
    intro rest
    rw [findGroup_processRows rest (processRow s r) r.name,
        findGroup_processRow_new s r hacc hf]
    refine ⟨(groupRows r.name rest).foldl updateItem (newItem r), rfl, ?_, ?_⟩
    · rw [foldl_updateItem_password]
      exact hp
    · rw [foldl_updateItem_username]
      rfl
  · intro item hf
    refine ⟨findGroup_processRow_update s r item hacc hf, rfl, rfl, ?_⟩
    have h := updateItem_notes item r
    rw [hp] at h
    exact h

/-- Witness for C10 at a concrete input. -/
theorem empty_password_rows_witness :
    sampleRowD.password = "" ∧ sampleRowD.name ≠ "" ∧ sampleRowD.url ≠ "" ∧
    sampleRowD.username ≠ "" ∧
    (acceptedB sampleRowD = true ∧
     (findGroup [] sampleRowD.name = none →
       findGroup (processRow [] sampleRowD) sampleRowD.name = some (newItem sampleRowD) ∧
       (newItem sampleRowD).login.password = "" ∧
       ∀ rest : List Row, ∃ it2,
         findGroup (processRows (processRow [] sampleRowD) rest) sampleRowD.name = some it2 ∧
         it2.login.password = "" ∧ it2.login.username = sampleRowD.username) ∧
     (∀ item, findGroup [] sampleRowD.name = some item →
       findGroup (processRow [] sampleRowD) sampleRowD.name = some (updateItem item sampleRowD) ∧
       (updateItem item sampleRowD).login.username = item.login.username ∧
       (updateItem item sampleRowD).login.password = item.login.password ∧
       (updateItem item sampleRowD).notes =
         (if item.login.username ≠ sampleRowD.username ∨ item.login.password ≠ "" then
           (if notesTruthy item.notes then
             some (item.notes.getD "" ++
               conflict_note sampleRowD.url sampleRowD.username)
           else
             some (pyStrip (conflict_note sampleRowD.url sampleRowD.username)))
         else item.notes))) :=
  ⟨by decide, by decide, by decide, by decide,
    empty_password_rows [] sampleRowD (by decide) (by decide) (by decide) (by decide)⟩

/-- Claim C6: when the declared header lacks any of the four required field
names, the run fails with a schema error whose payload carries the expected
and the found header lists (so it determines the missing fields, which form
a non-empty list), the exit status is 1, no document is produced, and the
outcome is independent of the rows, so no row is ever processed. -/
theorem schema_error_missing_headers (fieldnames : List String)
    (rows : List Row) (h : checkHeaders fieldnames = false) :
    runConversion fieldnames rows =
      Except.error (ConvError.schemaError expected_headers fieldnames) ∧
    exitCode (runConversion fieldnames rows) = 1 ∧
    (∀ rows2 : List Row,
      runConversion fieldnames rows2 = runConversion fieldnames rows) ∧
    missingHeaders fieldnames ≠ [] ∧
    (∀ hd : String, hd ∈ missingHeaders fieldnames ↔
      (hd ∈ expected_headers ∧ fieldnames.contains hd = false)) := by
  have he : ∀ rws : List Row, runConversion fieldnames rws =
      Except.error (ConvError.schemaError expected_headers fieldnames) := by
    intro rws
    unfold runConversion
    rw [h]
    rfl
  refine ⟨he rows, ?_, ?_, ?_, ?_⟩
  · rw [he rows]
    rfl
  · intro rows2
    rw [he rows2, he rows]
  · have h2 := h
    unfold checkHeaders at h2
    rw [List.all_eq_false] at h2
    obtain ⟨hd, hmem, hcontains⟩ := h2
    have hc2 : fieldnames.contains hd = false := by
      cases hcc : fieldnames.contains hd
      · rfl
      · exact absurd hcc hcontains
    have hmem2 : hd ∈ missingHeaders fieldnames := by
      unfold missingHeaders
      rw [List.mem_filter]
      exact ⟨hmem, by rw [hc2]; rfl⟩
    exact List.ne_nil_of_mem hmem2
  · intro hd
    unfold missingHeaders
    rw [List.mem_filter]
    constructor
    · rintro ⟨h1, h2⟩
      refine ⟨h1, ?_⟩
      cases hcc : fieldnames.contains hd
      · rfl
      · rw [hcc] at h2
        exact absurd h2 (by decide)
    · rintro ⟨h1, h2⟩
      exact ⟨h1, by rw [h2]; rfl⟩

/-- Witness for C6 at a concrete input: a header lacking `password`. -/
theorem schema_error_missing_headers_witness :
    checkHeaders ["name", "url", "username"] = false ∧
    runConversion ["name", "url", "username"] [] =
      Except.error (ConvError.schemaError expected_headers ["name", "url", "username"]) ∧
    exitCode (runConversion ["name", "url", "username"] []) = 1 ∧
    missingHeaders ["name", "url", "username"] = ["password"] :=
  ⟨by decide,
    (schema_error_missing_headers ["name", "url", "username"] [] (by decide)).1,
    (schema_error_missing_headers ["name", "url", "username"] [] (by decide)).2.1,
    by decide⟩
